import Mathlib

/-!
Verification of the stats-traits crate: a shallow embedding of its two
statistics interfaces (`Stats` over plain numeric sequences, `FrequencyStats`
over (occurrence-count, value) pairs), its error taxonomy, and its
NaN-tolerant `MinMax` helpers, together with theorems settling the frozen
claims about the crate.

Modelling conventions:
- Collections (`IntoIterator + Clone`) are Lean `List`s; cloning a pure list
  is the identity, so each extra pass just reuses the list.
- `usize` occurrence counts and lengths are `Nat`; arithmetic overflow inside
  the element type's own operations is, per the crate's error design, the
  element type's concern and is modelled by the element instance (the `i8`
  instance wraps, two's complement).
- `crate::Result<T>` is `Except StatsError T`.
- An abort raised by `panic!` or `.unwrap()` in this crate's own code is
  modelled as `none : Option T`; an operation that cannot abort and returns
  `Result` keeps the type `Except StatsError T`.
- `f64` values are modelled by `Fl`: either NaN or an exact rational. This
  captures the NaN/ordering/conversion structure the crate manipulates
  (`MinMax` for floats, `to_f64` / `from_f64` round trips); `f64::sqrt` is an
  external primitive whose numeric value the crate never inspects, so the
  statistics that need it take the square-root map as an explicit parameter.
-/

namespace StatsTraits

/-- Tags for the data types the crate converts between (error.rs, enum
DataType): the unsigned count type, double-precision float, and the
collection's element type. -/
inductive DataType where
  | Usize
  | F64
  | Item
deriving DecidableEq

/-- Error type of the crate (error.rs, enum StatsError): either the
collection was empty, or a conversion between two data types failed. -/
inductive StatsError where
  | EmptyCollection
  | CouldNotConvert : DataType → DataType → StatsError
deriving DecidableEq

/-- Model of an IEEE double: NaN or an exact rational number. Infinities and
signed zero are not distinguished; the claims under verification concern only
NaN handling and order comparisons, which this model captures. -/
inductive Fl where
  | nan
  | num (q : ℚ)
deriving DecidableEq

/-- helpers.rs, MinMax for f32/f64, which delegates to the core library
minimum (IEEE 754 minNum semantics): if one operand is NaN the other is
returned; otherwise the smaller by IEEE comparison. -/
def Fl.fmin : Fl → Fl → Fl
  | .nan, b => b
  | a, .nan => a
  | .num x, .num y => if x ≤ y then .num x else .num y

/-- helpers.rs, MinMax for f32/f64, maximum counterpart of Fl.fmin
(IEEE 754 maxNum semantics). -/
def Fl.fmax : Fl → Fl → Fl
  | .nan, b => b
  | a, .nan => a
  | .num x, .num y => if x ≤ y then .num y else .num x

/-- The numeric capability a collection element must provide (helpers.rs
NumExt = Num + FromPrimitive + Copy + Sum, plus the separately-bounded
MinMax of helpers.rs and the ToPrimitive bound of std_dev), packaged as an
explicit dictionary so every interface operation can be stated for an
arbitrary conforming element type. -/
structure Elem (T : Type) where
  zero : T
  add : T → T → T
  sub : T → T → T
  mul : T → T → T
  div : T → T → T
  minOp : T → T → T
  maxOp : T → T → T
  from_usize : Nat → Option T
  to_f64 : T → Option Fl
  from_f64 : Fl → Option T

/-- Two's-complement wrap into the i8 value range [-128, 127]. -/
def wrap8 (x : Int) : Int := (x + 128) % 256 - 128

/-- The i8 element instance: values are integers identified with their i8
bit pattern, arithmetic wraps (the element type's own overflow concern),
division truncates toward zero as Rust integer division does, min/max are
the total order of Ord, and from_usize succeeds exactly on counts
representable in i8 (0..=127). from_f64 follows num_traits: truncate toward
zero, fail on NaN or out of range; to_f64 is exact for i8. -/
def elemI8 : Elem Int where
  zero := 0
  add a b := wrap8 (a + b)
  sub a b := wrap8 (a - b)
  mul a b := wrap8 (a * b)
  div a b := wrap8 (Int.tdiv a b)
  minOp a b := min a b
  maxOp a b := max a b
  from_usize n := if n ≤ 127 then some (n : Int) else none
  to_f64 x := some (.num (x : ℚ))
  from_f64 f :=
    match f with
    | .nan => none
    | .num q =>
      let t : Int := if 0 ≤ q then ⌊q⌋ else ⌈q⌉
      if -128 ≤ t ∧ t ≤ 127 then some t else none

namespace FrequencyStats

variable {T : Type}

/-- freq.rs, FrequencyStats::count: the total number of values, i.e. the sum
of all occurrence counts (the total weight), not the number of pairs. -/
def count (fs : List (Nat × T)) : Nat :=
  (fs.map Prod.fst).sum

/-- freq.rs, FrequencyStats::non_zero_count: the weighted count, or
EmptyCollection when it is zero. -/
def non_zero_count (fs : List (Nat × T)) : Except StatsError Nat :=
  if count fs = 0 then .error .EmptyCollection else .ok (count fs)

/-- freq.rs, FrequencyStats::non_zero_count_into_item: non_zero_count then
conversion into the element type, with CouldNotConvert{Usize, Item} when the
weighted count is not representable. -/
def non_zero_count_into_item (E : Elem T) (fs : List (Nat × T)) :
    Except StatsError T :=
  match non_zero_count fs with
  | .error e => .error e
  | .ok n =>
    match E.from_usize n with
    | none => .error (.CouldNotConvert .Usize .Item)
    | some t => .ok t

/-- The loop body of freq.rs FrequencyStats::sum: fold the pairs left to
right, adding value × converted count, stopping with
CouldNotConvert{Usize, Item} at the first count from_usize rejects. -/
def sumAux (E : Elem T) : T → List (Nat × T) → Except StatsError T
  | acc, [] => .ok acc
  | acc, (freq, val) :: rest =>
    match E.from_usize freq with
    | none => .error (.CouldNotConvert .Usize .Item)
    | some f => sumAux E (E.add acc (E.mul val f)) rest

/-- freq.rs, FrequencyStats::sum: weighted sum starting from zero. -/
def sum (E : Elem T) (fs : List (Nat × T)) : Except StatsError T :=
  sumAux E E.zero fs

/-- Spec-side description of the weighted sum, following the spec's words:
the left-to-right accumulation of value × occurrence-count-converted-to-
element-type over all pairs. Stated with a default for the conversion; it is
compared with FrequencyStats.sum only under the hypothesis that every
occurrence count converts. -/
def sumSpecAccum (E : Elem T) (fs : List (Nat × T)) : T :=
  fs.foldl (fun acc p => E.add acc (E.mul p.2 ((E.from_usize p.1).getD E.zero)))
    E.zero

/-- freq.rs, FrequencyStats::mean: sum divided by the weighted count
converted into the element type, propagating either failure. -/
def mean (E : Elem T) (fs : List (Nat × T)) : Except StatsError T :=
  match sum E fs with
  | .error e => .error e
  | .ok s =>
    match non_zero_count_into_item E fs with
    | .error e => .error e
    | .ok c => .ok (E.div s c)

/-- The loop body of freq.rs FrequencyStats::variance: accumulate
(value − mean)² × converted count, stopping with
CouldNotConvert{Usize, Item} at the first count from_usize rejects. -/
def varAux (E : Elem T) (m : T) : T → List (Nat × T) → Except StatsError T
  | acc, [] => .ok acc
  | acc, (freq, val) :: rest =>
    match E.from_usize freq with
    | none => .error (.CouldNotConvert .Usize .Item)
    | some f =>
      varAux E m (E.add acc (E.mul (E.mul (E.sub val m) (E.sub val m)) f)) rest

/-- freq.rs, FrequencyStats::variance: weighted population variance. -/
def variance (E : Elem T) (fs : List (Nat × T)) : Except StatsError T :=
  match mean E fs with
  | .error e => .error e
  | .ok m =>
    match varAux E m E.zero fs with
    | .error e => .error e
    | .ok s =>
      match non_zero_count_into_item E fs with
      | .error e => .error e
      | .ok c => .ok (E.div s c)

/-- freq.rs, FrequencyStats::std_dev: convert the variance to f64
(CouldNotConvert{Item, F64} on failure), take the square root, convert back
(CouldNotConvert{F64, Item} on failure). The square-root map sq stands for
the f64::sqrt primitive. -/
def std_dev (E : Elem T) (sq : Fl → Fl) (fs : List (Nat × T)) :
    Except StatsError T :=
  match variance E fs with
  | .error e => .error e
  | .ok v =>
    match E.to_f64 v with
    | none => .error (.CouldNotConvert .Item .F64)
    | some x =>
      match E.from_f64 (sq x) with
      | none => .error (.CouldNotConvert .F64 .Item)
      | some r => .ok r

/-- freq.rs, FrequencyStats::min: drop the counts, reduce the values with
the MinMax minimum (Iterator::reduce folds from the first element), or
EmptyCollection when there are no pairs. -/
def min (E : Elem T) (fs : List (Nat × T)) : Except StatsError T :=
  match fs.map Prod.snd with
  | [] => .error .EmptyCollection
  | v :: rest => .ok (rest.foldl E.minOp v)

/-- freq.rs, FrequencyStats::max: as FrequencyStats.min with the MinMax
maximum. -/
def max (E : Elem T) (fs : List (Nat × T)) : Except StatsError T :=
  match fs.map Prod.snd with
  | [] => .error .EmptyCollection
  | v :: rest => .ok (rest.foldl E.maxOp v)

/-- freq.rs, FrequencyStats::range: max minus min, evaluating max first so
its failure is the one propagated. -/
def range (E : Elem T) (fs : List (Nat × T)) : Except StatsError T :=
  match max E fs with
  | .error e => .error e
  | .ok hi =>
    match min E fs with
    | .error e => .error e
    | .ok lo => .ok (E.sub hi lo)

/-- The loop body of freq.rs FrequencyStats::mode: the running best pair is
replaced by a scanned pair whose count is greater than or equal to the best
count. -/
def modeStep (b p : Nat × T) : Nat × T :=
  if p.1 ≥ b.1 then p else b

/-- freq.rs, FrequencyStats::mode: check the weighted count is non-zero
(EmptyCollection otherwise), then scan the pairs left to right from the
initial best (0, zero), keeping the value of the running best pair. -/
def mode (E : Elem T) (fs : List (Nat × T)) : Except StatsError T :=
  match non_zero_count fs with
  | .error e => .error e
  | .ok _ => .ok ((fs.foldl modeStep (0, E.zero)).2)

end FrequencyStats

namespace Stats

variable {T : Type}

/-- stats.rs (and the superseded lib.rs revision), Stats::sum: left fold of
addition from zero, as Iterator::sum performs. -/
def sum (E : Elem T) (l : List T) : T :=
  l.foldl E.add E.zero

/-- stats.rs, Stats::count: the number of elements. -/
def count (l : List T) : Nat :=
  l.length

/-- stats.rs, Stats::panicking_count: the length converted into the element
type; the None branch models the explicit panic when the length is not
representable. -/
def panicking_count (E : Elem T) (l : List T) : Option T :=
  E.from_usize (count l)

/-- stats.rs, Stats::mean: sum divided by panicking_count; none models the
panic propagated from panicking_count. -/
def mean (E : Elem T) (l : List T) : Option T :=
  match panicking_count E l with
  | none => none
  | some c => some (E.div (sum E l) c)

/-- stats.rs, Stats::variance: mean of squared deviations from the mean,
divided by panicking_count; none models a panic from either call. -/
def variance (E : Elem T) (l : List T) : Option T :=
  match mean E l with
  | none => none
  | some m =>
    match panicking_count E l with
    | none => none
    | some c =>
      some (E.div
        (l.foldl (fun acc x => E.add acc (E.mul (E.sub x m) (E.sub x m)))
          E.zero) c)

/-- stats.rs, Stats::std_dev: variance to f64 (panic when to_f64 fails),
square root, back to the element type with unwrap (panic when from_f64
fails); none models any of those panics. -/
def std_dev (E : Elem T) (sq : Fl → Fl) (l : List T) : Option T :=
  match variance E l with
  | none => none
  | some v =>
    match E.to_f64 v with
    | none => none
    | some x => E.from_f64 (sq x)

end Stats

/-- Helper: folding the MinMax-style minimum of a linear order over a list
from a starting value yields an element of the start-plus-list that is a
lower bound for all of them. -/
theorem foldlMin_spec {T : Type} [LinearOrder T] (l : List T) : ∀ a : T,
    l.foldl min a ∈ a :: l ∧ ∀ v ∈ a :: l, l.foldl min a ≤ v := by
  induction l with
  | nil =>
    intro a
    exact ⟨List.mem_singleton.mpr rfl, by simp⟩
  | cons b t ih =>
    intro a
    rw [List.foldl_cons]
    obtain ⟨hmem, hle⟩ := ih (min a b)
    constructor
    · rcases List.mem_cons.mp hmem with heq | hmem
      · rcases min_choice a b with hab | hab
        · exact List.mem_cons.mpr (Or.inl (heq.trans hab))
        · exact List.mem_cons.mpr
            (Or.inr (List.mem_cons.mpr (Or.inl (heq.trans hab))))
      · exact List.mem_cons.mpr (Or.inr (List.mem_cons.mpr (Or.inr hmem)))
    · intro v hv
      rcases List.mem_cons.mp hv with rfl | hv
      · exact le_trans (hle _ (List.mem_cons_self _ _)) (min_le_left _ _)
      · rcases List.mem_cons.mp hv with rfl | hv
        · exact le_trans (hle _ (List.mem_cons_self _ _)) (min_le_right _ _)
        · exact hle v (List.mem_cons_of_mem _ hv)

/-- Helper: the maximum counterpart of foldlMin_spec. -/
theorem foldlMax_spec {T : Type} [LinearOrder T] (l : List T) : ∀ a : T,
    l.foldl max a ∈ a :: l ∧ ∀ v ∈ a :: l, v ≤ l.foldl max a := by
  induction l with
  | nil =>
    intro a
    exact ⟨List.mem_singleton.mpr rfl, by simp⟩
  | cons b t ih =>
    intro a
    rw [List.foldl_cons]
    obtain ⟨hmem, hge⟩ := ih (max a b)
    constructor
    · rcases List.mem_cons.mp hmem with heq | hmem
      · rcases max_choice a b with hab | hab
        · exact List.mem_cons.mpr (Or.inl (heq.trans hab))
        · exact List.mem_cons.mpr
            (Or.inr (List.mem_cons.mpr (Or.inl (heq.trans hab))))
      · exact List.mem_cons.mpr (Or.inr (List.mem_cons.mpr (Or.inr hmem)))
    · intro v hv
      rcases List.mem_cons.mp hv with rfl | hv
      · exact le_trans (le_max_left _ _) (hge _ (List.mem_cons_self _ _))
      · rcases List.mem_cons.mp hv with rfl | hv
        · exact le_trans (le_max_right _ _) (hge _ (List.mem_cons_self _ _))
        · exact hge v (List.mem_cons_of_mem _ hv)

/-- Helper: the left-to-right mode scan either keeps its initial best pair,
in which case every scanned count is strictly below the initial count, or
lands on an occurrence of the final best in the list, with every count at
most the final best count and every later count strictly below it (the
greater-or-equal tie-break makes the last maximal pair win). -/
theorem modeFold_split (T : Type) (fs : List (Nat × T)) : ∀ b : Nat × T,
    (fs.foldl FrequencyStats.modeStep b = b ∧ ∀ p ∈ fs, p.1 < b.1) ∨
    (∃ l1 l2, fs = l1 ++ (fs.foldl FrequencyStats.modeStep b) :: l2 ∧
      b.1 ≤ (fs.foldl FrequencyStats.modeStep b).1 ∧
      (∀ p ∈ fs, p.1 ≤ (fs.foldl FrequencyStats.modeStep b).1) ∧
      ∀ p ∈ l2, p.1 < (fs.foldl FrequencyStats.modeStep b).1) := by
  induction fs with
  | nil =>
    intro b
    left
    exact ⟨rfl, by simp⟩
  | cons p t ih =>
    intro b
    rw [List.foldl_cons]
    by_cases hbp : p.1 ≥ b.1
    · have hstep : FrequencyStats.modeStep b p = p := by
        simp [FrequencyStats.modeStep, hbp]
      rw [hstep]
      rcases ih p with ⟨heq, hlt⟩ | ⟨l1, l2, hsplit, hle, hub, hl2⟩
      · right
        rw [heq]
        refine ⟨[], t, rfl, hbp, ?_, hlt⟩
        intro q hq
        rcases List.mem_cons.mp hq with rfl | hq
        · exact le_refl _
        · exact le_of_lt (hlt q hq)
      · right
        refine ⟨p :: l1, l2, ?_, le_trans hbp hle, ?_, hl2⟩
        · conv_lhs => rw [hsplit]
          rfl
        · intro q hq
          rcases List.mem_cons.mp hq with rfl | hq
          · exact hle
          · exact hub q hq
    · have hstep : FrequencyStats.modeStep b p = b := by
        simp [FrequencyStats.modeStep, hbp]
      rw [hstep]
      push_neg at hbp
      rcases ih b with ⟨heq, hlt⟩ | ⟨l1, l2, hsplit, hle, hub, hl2⟩
      · left
        rw [heq]
        refine ⟨rfl, ?_⟩
        intro q hq
        rcases List.mem_cons.mp hq with rfl | hq
        · exact hbp
        · exact hlt q hq
      · right
        refine ⟨p :: l1, l2, ?_, hle, ?_, hl2⟩
        · conv_lhs => rw [hsplit]
          rfl
        · intro q hq
          rcases List.mem_cons.mp hq with rfl | hq
          · exact le_trans (le_of_lt hbp) hle
          · exact hub q hq

/-- Helper: when every occurrence count converts into the element type, the
sum loop computes the plain left fold of acc + value × converted count. -/
theorem sumAux_all_some (T : Type) (E : Elem T) (fs : List (Nat × T)) :
    ∀ acc : T, (∀ p ∈ fs, (E.from_usize p.1).isSome) →
    FrequencyStats.sumAux E acc fs =
      .ok (fs.foldl
        (fun acc p => E.add acc (E.mul p.2 ((E.from_usize p.1).getD E.zero)))
        acc) := by
  induction fs with
  | nil =>
    intro acc _
    rfl
  | cons p t ih =>
    rcases p with ⟨freq, val⟩
    intro acc h
    obtain ⟨f, hf⟩ := Option.isSome_iff_exists.mp (h _ (List.mem_cons_self _ _))
    rw [List.foldl_cons]
    simp only [FrequencyStats.sumAux, hf]
    exact ih _ (fun q hq => h q (List.mem_cons_of_mem _ hq))

/-- Helper: the sum loop stops with CouldNotConvert{Usize, Item} at the
first pair whose occurrence count does not convert, whatever follows it. -/
theorem sumAux_first_bad (T : Type) (E : Elem T) (c : Nat) (v : T)
    (l2 : List (Nat × T)) : ∀ (l1 : List (Nat × T)) (acc : T),
    (∀ p ∈ l1, (E.from_usize p.1).isSome) → E.from_usize c = none →
    FrequencyStats.sumAux E acc (l1 ++ (c, v) :: l2) =
      .error (.CouldNotConvert .Usize .Item) := by
  intro l1
  induction l1 with
  | nil =>
    intro acc _ hc
    simp [FrequencyStats.sumAux, hc]
  | cons p t ih =>
    rcases p with ⟨freq, val⟩
    intro acc h hc
    obtain ⟨f, hf⟩ := Option.isSome_iff_exists.mp (h _ (List.mem_cons_self _ _))
    simp only [List.cons_append, FrequencyStats.sumAux, hf]
    exact ih _ (fun q hq => h q (List.mem_cons_of_mem _ hq)) hc

set_option maxRecDepth 4000 in
/-- Claim C1 counterexample: the claim asserts that no operation of either
statistics interface panics; but the plain interface's panicking_count (and
hence mean, which calls it) panics — modelled as none — on a 128-element
collection with 8-bit signed element type, whose length is not representable
in the element type. -/
theorem claim1_counterexample :
    Stats.panicking_count elemI8 (List.replicate 128 (0 : Int)) = none ∧
    Stats.mean elemI8 (List.replicate 128 (0 : Int)) = none := by
  exact ⟨rfl, rfl⟩

/-- Claim C1 (amended): the frequency-statistics interface communicates all
failure through its explicit result value — an unrepresentable total weight,
for example, yields Err(CouldNotConvert{Usize, Item}) — but the plain
statistics interface panics: whenever the collection's length is not
representable in the element type, panicking_count, mean, variance and
std_dev all panic (modelled as none) instead of returning a value. -/
theorem claim1_amended (T : Type) (E : Elem T) (sq : Fl → Fl) (l : List T)
    (fs : List (Nat × T)) (h1 : E.from_usize l.length = none)
    (h2 : FrequencyStats.count fs ≠ 0)
    (h3 : E.from_usize (FrequencyStats.count fs) = none) :
    Stats.panicking_count E l = none ∧ Stats.mean E l = none ∧
    Stats.variance E l = none ∧ Stats.std_dev E sq l = none ∧
    FrequencyStats.non_zero_count_into_item E fs =
      .error (.CouldNotConvert .Usize .Item) := by
  have hp : Stats.panicking_count E l = none := h1
  refine ⟨hp, ?_, ?_, ?_, ?_⟩
  · simp [Stats.mean, hp]
  · simp [Stats.variance, Stats.mean, hp]
  · simp [Stats.std_dev, Stats.variance, Stats.mean, hp]
  · simp [FrequencyStats.non_zero_count_into_item,
      FrequencyStats.non_zero_count, h2, h3]

set_option maxRecDepth 4000 in
/-- Claim C1 witness: with 8-bit signed elements, a 128-element collection
makes every panicking plain-interface operation abort, while a frequency
collection of total weight 128 gets an explicit conversion error. -/
theorem claim1_witness :
    Stats.panicking_count elemI8 (List.replicate 128 (1 : Int)) = none ∧
    Stats.mean elemI8 (List.replicate 128 (1 : Int)) = none ∧
    Stats.variance elemI8 (List.replicate 128 (1 : Int)) = none ∧
    Stats.std_dev elemI8 (fun f => f) (List.replicate 128 (1 : Int)) = none ∧
    FrequencyStats.non_zero_count_into_item elemI8 [(128, (0 : Int))] =
      .error (.CouldNotConvert .Usize .Item) :=
  claim1_amended Int elemI8 (fun f => f) (List.replicate 128 (1 : Int))
    [(128, (0 : Int))] (by decide) (by decide) (by decide)

/-- Claim C5 counterexample: the claim asserts that std_dev — citing the
plain-statistics Stats::std_dev alongside the frequency one — fails with
CouldNotConvert{F64, Item} when the back-conversion from f64 fails; but on
[2] with 8-bit signed elements, where the variance is 0 and converts to
f64, a square root landing on NaN makes the back-conversion fail, and the
plain std_dev panics through unwrap (modelled as none) instead of
communicating any CouldNotConvert value — its return type has no error
channel at all. -/
theorem claim5_counterexample :
    Stats.variance elemI8 [2] = some 0 ∧
    elemI8.to_f64 0 = some (Fl.num 0) ∧
    elemI8.from_f64 Fl.nan = none ∧
    Stats.std_dev elemI8 (fun _ => Fl.nan) [2] = none :=
  ⟨rfl, by decide, rfl, rfl⟩

/-- Claim C5 (amended): the frequency-statistics std_dev propagates any
variance error unchanged, fails with CouldNotConvert{Item, F64} exactly
when to_f64 rejects the variance, fails with CouldNotConvert{F64, Item}
exactly when from_f64 rejects the square root, and otherwise returns Ok of
the converted-back value, the four cases being exhaustive; the
plain-statistics std_dev performs the same conversion sequence but, at each
of those failure points (and for a panic propagated from variance), panics
— modelled as none — instead of returning a CouldNotConvert error. -/
theorem claim5_amended (T : Type) (E : Elem T) (sq : Fl → Fl)
    (fs : List (Nat × T)) (l : List T) (e : StatsError) (v r : T) (x : Fl) :
    (FrequencyStats.variance E fs = .error e →
      FrequencyStats.std_dev E sq fs = .error e) ∧
    (FrequencyStats.variance E fs = .ok v → E.to_f64 v = none →
      FrequencyStats.std_dev E sq fs = .error (.CouldNotConvert .Item .F64)) ∧
    (FrequencyStats.variance E fs = .ok v → E.to_f64 v = some x →
      E.from_f64 (sq x) = none →
      FrequencyStats.std_dev E sq fs = .error (.CouldNotConvert .F64 .Item)) ∧
    (FrequencyStats.variance E fs = .ok v → E.to_f64 v = some x →
      E.from_f64 (sq x) = some r →
      FrequencyStats.std_dev E sq fs = .ok r) ∧
    (Stats.variance E l = none → Stats.std_dev E sq l = none) ∧
    (Stats.variance E l = some v → E.to_f64 v = none →
      Stats.std_dev E sq l = none) ∧
    (Stats.variance E l = some v → E.to_f64 v = some x →
      E.from_f64 (sq x) = none → Stats.std_dev E sq l = none) ∧
    (Stats.variance E l = some v → E.to_f64 v = some x →
      E.from_f64 (sq x) = some r → Stats.std_dev E sq l = some r) := by
  refine ⟨fun hv => ?_, fun hv ht => ?_, fun hv ht hf => ?_,
    fun hv ht hf => ?_, fun hv => ?_, fun hv ht => ?_, fun hv ht hf => ?_,
    fun hv ht hf => ?_⟩
  · simp [FrequencyStats.std_dev, hv]
  · simp [FrequencyStats.std_dev, hv, ht]
  · simp [FrequencyStats.std_dev, hv, ht, hf]
  · simp [FrequencyStats.std_dev, hv, ht, hf]
  · simp [Stats.std_dev, hv]
  · simp [Stats.std_dev, hv, ht]
  · simp [Stats.std_dev, hv, ht, hf]
  · simp [Stats.std_dev, hv, ht, hf]

/-- Claim C5 witness: with 8-bit signed elements and a square-root map
landing on NaN, the frequency std_dev on [(1, 2)] fails with the explicit
CouldNotConvert{F64, Item} value while the plain std_dev on [2] panics. -/
theorem claim5_witness :
    FrequencyStats.std_dev elemI8 (fun _ => Fl.nan) [(1, (2 : Int))] =
      .error (.CouldNotConvert .F64 .Item) ∧
    Stats.std_dev elemI8 (fun _ => Fl.nan) [(2 : Int)] = none :=
  ⟨(claim5_amended Int elemI8 (fun _ => Fl.nan) [(1, 2)] [2]
      StatsError.EmptyCollection 0 0 (Fl.num 0)).2.2.1 rfl (by decide) rfl,
   (claim5_amended Int elemI8 (fun _ => Fl.nan) [(1, 2)] [2]
      StatsError.EmptyCollection 0 0 (Fl.num 0)).2.2.2.2.2.2.1 rfl (by decide)
      rfl⟩

/-- Claim C2 counterexample: the claim asserts that a non-empty pair
sequence whose entries all carry zero occurrence count is accepted as
non-empty and mode returns Ok of the last-scanned highest-count value; on
the concrete input [(0, 1), (0, 2)] the code instead fails, because the
total weight is zero, so mode returns Err(EmptyCollection). -/
theorem claim2_counterexample :
    FrequencyStats.mode elemI8 [(0, 1), (0, 2)] =
      .error .EmptyCollection := rfl

/-- Claim C2 (amended): frequency-statistics mode fails with
EmptyCollection exactly when the total weight (sum of occurrence counts) is
zero; EmptyCollection is its only error; and whenever the total weight is
non-zero it returns Ok of some value. In particular a non-empty sequence of
all-zero-count pairs has zero total weight and is rejected. -/
theorem claim2_amended (T : Type) (E : Elem T) (fs : List (Nat × T)) :
    (FrequencyStats.mode E fs = .error .EmptyCollection ↔
      FrequencyStats.count fs = 0) ∧
    (∀ e, FrequencyStats.mode E fs = .error e → e = .EmptyCollection) ∧
    (FrequencyStats.count fs ≠ 0 → ∃ v, FrequencyStats.mode E fs = .ok v) := by
  by_cases h : FrequencyStats.count fs = 0 <;>
    simp [FrequencyStats.mode, FrequencyStats.non_zero_count, h]

/-- Claim C2 witness: on [(3, 7), (0, 1)] the total weight is 3 ≠ 0, so
mode returns Ok of some value. -/
theorem claim2_witness :
    ∃ v, FrequencyStats.mode elemI8 [(3, 7), (0, 1)] = .ok v :=
  (claim2_amended Int elemI8 [(3, 7), (0, 1)]).2.2 (by decide)

/-- Claim C7: the MinMax implementation for floating element types is
NaN-tolerant: with exactly one NaN operand the non-NaN operand is returned
(on either side), with two numeric operands the smaller/larger by the IEEE
order is returned, with two NaN operands NaN is returned; in particular
min(1.0, NaN) = 1.0 and max(1.0, NaN) = 1.0. -/
theorem claim7_nan_tolerant_min_max (x y : ℚ) :
    Fl.fmin (.num x) .nan = .num x ∧ Fl.fmax (.num x) .nan = .num x ∧
    Fl.fmin .nan (.num x) = .num x ∧ Fl.fmax .nan (.num x) = .num x ∧
    Fl.fmin (.num x) (.num y) = .num (min x y) ∧
    Fl.fmax (.num x) (.num y) = .num (max x y) ∧
    Fl.fmin .nan .nan = .nan ∧ Fl.fmax .nan .nan = .nan ∧
    Fl.fmin (.num 1) .nan = .num 1 ∧ Fl.fmax (.num 1) .nan = .num 1 := by
  refine ⟨rfl, rfl, rfl, rfl, ?_, ?_, rfl, rfl, rfl, rfl⟩
  · show (if x ≤ y then Fl.num x else Fl.num y) = Fl.num (min x y)
    split_ifs with h
    · rw [min_eq_left h]
    · rw [min_eq_right (le_of_not_le h)]
  · show (if x ≤ y then Fl.num y else Fl.num x) = Fl.num (max x y)
    split_ifs with h
    · rw [max_eq_right h]
    · rw [max_eq_left (le_of_not_le h)]

/-- Claim C8: the frequency count is the sum of all occurrence counts (the
total weight, not the number of pairs), and non_zero_count fails with
EmptyCollection exactly when that total weight is zero, returning Ok of the
total weight otherwise. -/
theorem claim8_count_is_total_weight (T : Type) (fs : List (Nat × T)) :
    FrequencyStats.count fs = (fs.map Prod.fst).sum ∧
    (FrequencyStats.non_zero_count fs = .error .EmptyCollection ↔
      FrequencyStats.count fs = 0) ∧
    (FrequencyStats.count fs ≠ 0 →
      FrequencyStats.non_zero_count fs = .ok (FrequencyStats.count fs)) := by
  refine ⟨rfl, ?_⟩
  by_cases h : FrequencyStats.count fs = 0 <;>
    simp [FrequencyStats.non_zero_count, h]

/-- Claim C8 witness: [(1, 1), (2, 2)] has two pairs but total weight 3,
and non_zero_count returns Ok 3. -/
theorem claim8_witness :
    FrequencyStats.non_zero_count [(1, (1 : Int)), (2, 2)] = .ok 3 := by
  have h := (claim8_count_is_total_weight Int [(1, (1 : Int)), (2, 2)]).2.2
    (by decide)
  simpa using h

/-- Claim C10: min and max depend only on the values of the pairs, never on
their occurrence counts, so a zero-count pair participates exactly like any
other; concretely, on [(0, 1), (5, 10)] the zero-count pair's value 1 is the
returned minimum and min returns Ok 1 (and max returns Ok 10). -/
theorem claim10_zero_count_participates (T : Type) (E : Elem T)
    (fs fsb : List (Nat × T)) (h : fs.map Prod.snd = fsb.map Prod.snd) :
    FrequencyStats.min E fs = FrequencyStats.min E fsb ∧
    FrequencyStats.max E fs = FrequencyStats.max E fsb ∧
    FrequencyStats.min elemI8 [(0, 1), (5, 10)] = .ok 1 ∧
    FrequencyStats.max elemI8 [(0, 1), (5, 10)] = .ok 10 := by
  refine ⟨?_, ?_, rfl, rfl⟩
  · unfold FrequencyStats.min
    rw [h]
  · unfold FrequencyStats.max
    rw [h]

/-- Claim C10 witness: reassigning the counts of [(0, 1), (5, 10)] leaves
min and max unchanged, and the zero-count pair's value 1 is the minimum. -/
theorem claim10_witness :
    FrequencyStats.min elemI8 [(0, 1), (5, 10)] =
      FrequencyStats.min elemI8 [(7, 1), (0, 10)] ∧
    FrequencyStats.min elemI8 [(0, 1), (5, 10)] = .ok 1 :=
  ⟨(claim10_zero_count_participates Int elemI8 [(0, 1), (5, 10)]
      [(7, 1), (0, 10)] rfl).1,
   (claim10_zero_count_participates Int elemI8 [(0, 1), (5, 10)]
      [(7, 1), (0, 10)] rfl).2.2.1⟩

/-- Claim C3: for every frequency pair sequence with positive total weight,
mode returns Ok of the value of a pair carrying the highest occurrence
count, and on ties the last such pair in iteration order wins: the sequence
splits as l1 ++ (c, v) :: l2 where mode returns v, c bounds every count in
the sequence, and every count after the chosen pair is strictly smaller (a
later pair with a count greater than or equal to the running best replaces
it during the scan). -/
theorem claim3_mode_last_max (T : Type) (E : Elem T) (fs : List (Nat × T))
    (h : 0 < FrequencyStats.count fs) :
    ∃ c v l1 l2, fs = l1 ++ (c, v) :: l2 ∧
      FrequencyStats.mode E fs = .ok v ∧
      (∀ p ∈ fs, p.1 ≤ c) ∧ ∀ p ∈ l2, p.1 < c := by
  have hc : FrequencyStats.count fs ≠ 0 := Nat.pos_iff_ne_zero.mp h
  have hne : fs ≠ [] := by
    rintro rfl
    exact hc rfl
  have hmode : FrequencyStats.mode E fs =
      .ok ((fs.foldl FrequencyStats.modeStep (0, E.zero)).2) := by
    simp [FrequencyStats.mode, FrequencyStats.non_zero_count, hc]
  rcases modeFold_split T fs (0, E.zero) with ⟨_, hlt⟩ |
    ⟨l1, l2, hsplit, _, hub, hl2⟩
  · obtain ⟨p, hp⟩ := List.exists_mem_of_ne_nil fs hne
    exact absurd (hlt p hp) (Nat.not_lt_zero p.1)
  · refine ⟨(fs.foldl FrequencyStats.modeStep (0, E.zero)).1,
      (fs.foldl FrequencyStats.modeStep (0, E.zero)).2, l1, l2, ?_,
      hmode, hub, hl2⟩
    rw [Prod.mk.eta]
    exact hsplit

/-- Claim C3 witness: on [(1, 5), (2, 7), (2, 9)], whose counts 2 and 2 tie
for the maximum, the last maximal pair (2, 9) wins. -/
theorem claim3_witness :
    ∃ c v l1 l2, ([(1, 5), (2, 7), (2, 9)] : List (Nat × Int)) =
      l1 ++ (c, v) :: l2 ∧
      FrequencyStats.mode elemI8 [(1, 5), (2, 7), (2, 9)] = .ok v ∧
      (∀ p ∈ ([(1, 5), (2, 7), (2, 9)] : List (Nat × Int)), p.1 ≤ c) ∧
      ∀ p ∈ l2, p.1 < c :=
  claim3_mode_last_max Int elemI8 [(1, 5), (2, 7), (2, 9)] (by decide)

/-- Claim C4: when every occurrence count is representable in the element
type, the weighted sum is Ok of the left-to-right accumulation of
value × converted count over all pairs; and whenever the sequence splits as
l1 ++ (c, v) :: l2 with every count of l1 representable and c not, the sum
is Err(CouldNotConvert{Usize, Item}) whatever pairs follow — the failure is
decided at the first unrepresentable count. -/
theorem claim4_sum_accumulation (T : Type) (E : Elem T)
    (fs : List (Nat × T)) :
    ((∀ p ∈ fs, (E.from_usize p.1).isSome) →
      FrequencyStats.sum E fs = .ok (FrequencyStats.sumSpecAccum E fs)) ∧
    (∀ l1 (c : Nat) (v : T) l2, fs = l1 ++ (c, v) :: l2 →
      (∀ p ∈ l1, (E.from_usize p.1).isSome) → E.from_usize c = none →
      FrequencyStats.sum E fs = .error (.CouldNotConvert .Usize .Item)) := by
  constructor
  · intro h
    exact sumAux_all_some T E fs E.zero h
  · intro l1 c v l2 hsplit h hc
    rw [hsplit]
    exact sumAux_first_bad T E c v l2 l1 E.zero h hc

/-- Claim C4 witness: on [(2, 3), (200, 1), (5, 9)] with 8-bit signed
elements the count 200 of the second pair is the first unrepresentable one,
so sum fails with CouldNotConvert{Usize, Item} even though the pair after it
is unproblematic. -/
theorem claim4_witness :
    FrequencyStats.sum elemI8 [(2, 3), (200, 1), (5, 9)] =
      .error (.CouldNotConvert .Usize .Item) :=
  (claim4_sum_accumulation Int elemI8 [(2, 3), (200, 1), (5, 9)]).2
    [(2, 3)] 200 1 [(5, 9)] rfl (by decide) (by decide)

/-- Claim C6: over an element type whose MinMax operations are the min and
max of a linear order, min and max fail with EmptyCollection exactly when
the pair sequence is empty, regardless of total weight; on a non-empty
sequence they return the smallest and largest of the pairs' values, and
range returns their difference max − min; and any failure of max is the one
range propagates, max being evaluated first. -/
theorem claim6_min_max_range (T : Type) [LinearOrder T] (E : Elem T)
    (fs : List (Nat × T)) (hmin : E.minOp = fun a b => min a b)
    (hmax : E.maxOp = fun a b => max a b) :
    (fs = [] → FrequencyStats.min E fs = .error .EmptyCollection ∧
      FrequencyStats.max E fs = .error .EmptyCollection ∧
      FrequencyStats.range E fs = .error .EmptyCollection) ∧
    (fs ≠ [] → ∃ lo hi, FrequencyStats.min E fs = .ok lo ∧
      FrequencyStats.max E fs = .ok hi ∧
      FrequencyStats.range E fs = .ok (E.sub hi lo) ∧
      lo ∈ fs.map Prod.snd ∧ hi ∈ fs.map Prod.snd ∧
      ∀ v ∈ fs.map Prod.snd, lo ≤ v ∧ v ≤ hi) ∧
    ∀ e, FrequencyStats.max E fs = .error e →
      FrequencyStats.range E fs = .error e := by
  refine ⟨?_, ?_, ?_⟩
  · rintro rfl
    exact ⟨rfl, rfl, rfl⟩
  · intro hne
    cases fs with
    | nil => exact absurd rfl hne
    | cons hd tl =>
      have hminec : FrequencyStats.min E (hd :: tl) =
          .ok ((tl.map Prod.snd).foldl min hd.2) := by
        simp [FrequencyStats.min, hmin]
      have hmaxec : FrequencyStats.max E (hd :: tl) =
          .ok ((tl.map Prod.snd).foldl max hd.2) := by
        simp [FrequencyStats.max, hmax]
      obtain ⟨hmemlo, hlo⟩ := foldlMin_spec (tl.map Prod.snd) hd.2
      obtain ⟨hmemhi, hhi⟩ := foldlMax_spec (tl.map Prod.snd) hd.2
      refine ⟨(tl.map Prod.snd).foldl min hd.2,
        (tl.map Prod.snd).foldl max hd.2, hminec, hmaxec, ?_, ?_, ?_, ?_⟩
      · unfold FrequencyStats.range
        rw [hmaxec, hminec]
      · rw [List.map_cons]
        exact hmemlo
      · rw [List.map_cons]
        exact hmemhi
      · intro v hv
        rw [List.map_cons] at hv
        exact ⟨hlo v hv, hhi v hv⟩
  · intro e he
    unfold FrequencyStats.range
    rw [he]

/-- Claim C6 witness: on [(2, 9), (3, 4)] with 8-bit signed elements, min is
Ok 4, max is Ok 9 and range is Ok of their difference, each value bounded
between them; the emptiness and max-propagation branches hold vacuously. -/
theorem claim6_witness :
    (([(2, 9), (3, 4)] : List (Nat × Int)) = [] →
      FrequencyStats.min elemI8 [(2, 9), (3, 4)] = .error .EmptyCollection ∧
      FrequencyStats.max elemI8 [(2, 9), (3, 4)] = .error .EmptyCollection ∧
      FrequencyStats.range elemI8 [(2, 9), (3, 4)] =
        .error .EmptyCollection) ∧
    (([(2, 9), (3, 4)] : List (Nat × Int)) ≠ [] → ∃ lo hi,
      FrequencyStats.min elemI8 [(2, 9), (3, 4)] = .ok lo ∧
      FrequencyStats.max elemI8 [(2, 9), (3, 4)] = .ok hi ∧
      FrequencyStats.range elemI8 [(2, 9), (3, 4)] = .ok (elemI8.sub hi lo) ∧
      lo ∈ ([(2, 9), (3, 4)] : List (Nat × Int)).map Prod.snd ∧
      hi ∈ ([(2, 9), (3, 4)] : List (Nat × Int)).map Prod.snd ∧
      ∀ v ∈ ([(2, 9), (3, 4)] : List (Nat × Int)).map Prod.snd,
        lo ≤ v ∧ v ≤ hi) ∧
    ∀ e, FrequencyStats.max elemI8 [(2, 9), (3, 4)] = .error e →
      FrequencyStats.range elemI8 [(2, 9), (3, 4)] = .error e :=
  claim6_min_max_range Int elemI8 [(2, 9), (3, 4)] rfl rfl

/-- Claim C9: for every non-empty plain sequence whose length is
representable in the element type, count is the number of elements and mean
is the sum divided by that converted count; with the 8-bit signed integer
instance division truncates toward zero, so the mean of [1, 2, 3, 4] is 2
and the mean of [-3, -4] is -3 (not -4). -/
theorem claim9_count_mean (T : Type) (E : Elem T) (l : List T) (c : T)
    (h1 : l ≠ []) (h2 : E.from_usize l.length = some c) :
    Stats.count l = l.length ∧
    Stats.mean E l = some (E.div (Stats.sum E l) c) ∧
    Stats.mean elemI8 [1, 2, 3, 4] = some 2 ∧
    Stats.mean elemI8 [-3, -4] = some (-3) := by
  have hp : Stats.panicking_count E l = some c := h2
  exact ⟨rfl, by simp [Stats.mean, hp], rfl, rfl⟩

/-- Claim C9 witness: [1, 2, 3, 4] with 8-bit signed elements has count 4
and truncating mean 2. -/
theorem claim9_witness :
    Stats.count ([1, 2, 3, 4] : List Int) = 4 ∧
    Stats.mean elemI8 [1, 2, 3, 4] =
      some (elemI8.div (Stats.sum elemI8 [1, 2, 3, 4]) 4) ∧
    Stats.mean elemI8 [1, 2, 3, 4] = some 2 ∧
    Stats.mean elemI8 [-3, -4] = some (-3) :=
  claim9_count_mean Int elemI8 [1, 2, 3, 4] 4 (by decide) (by decide)

end StatsTraits
